import Mathlib

/-!
# Verification of `gitpitch-generate.py`

A shallow embedding, in Lean 4, of the core logic of the
`gitpitch-generate` tool (a Python 2 script):

* the slug rule `slugify` (source lines 150-195),
* discovery and metadata pairing (source lines 53-64),
* materialization error handling (source lines 68-79),
* the index-table generator `generate_index_body` (source lines 115-147).

Conventions used throughout the embedding:

* Python (2) strings are modelled as Lean `String` / `List Char`; the
  script runs under Python 2, where `round` rounds half away from zero
  and `x / float(y)` is true division.
* Machine floats only occur in `ceil(n / 10.0)` and `round(n / float(c))`
  with small integer operands, where the float computation agrees with
  exact rational arithmetic; both are therefore embedded as exact natural
  number formulas: `ceil (n/10) = (n+9)/10` and
  `round-half-away (n/c) = (2*n + c) / (2*c)`.
* Fallible code is embedded with `Option` / `Except`: Python raising an
  uncaught exception is `none` / `.error`.
-/

/-! ## The slug rule (`slugify`, source lines 150-195)

`slugify(value)` in ASCII mode (`allow_unicode=False`) runs, in order:

1. `unicodedata.normalize('NFKD', value).encode('ascii','ignore').decode('ascii')`
2. `re.sub(r'[^\w\s-]', '', value)`  (Python 2 `re` without `re.UNICODE`:
   `\w = [A-Za-z0-9_]`, `\s = [ \t\n\r\v\f]`)
3. `.strip()` then `.lower()`
4. `re.sub(r'[-\s]+', '-', value)`

NFKD normalization is the identity on ASCII text, so the composite of
step 1 is embedded as "drop every non-ASCII character"
(`encode('ascii','ignore')`).  This is exact on ASCII input — and the
surrounding Python 2 script can in fact only ever reach `slugify` with
ASCII input, because `unicode(str(value))` on line 189 raises
`UnicodeDecodeError` for any non-ASCII byte string.
-/

/-- Python 2 regex class `\s` (no `re.UNICODE`): space, tab, newline,
carriage return, vertical tab, form feed.  Also the character set removed
by `unicode.strip()` restricted to ASCII. -/
def isSpaceChar (c : Char) : Bool :=
  c == ' ' || c == '\t' || c == '\n' || c == '\r' || c == '\x0b' || c == '\x0c'

/-- Python 2 regex class `\w` (no `re.UNICODE`): ASCII letters, digits and
underscore. -/
def isWordChar (c : Char) : Bool :=
  c.isAlpha || c.isDigit || c == '_'

/-- The characters kept by `re.sub(r'[^\w\s-]', '', value)`. -/
def keepChar (c : Char) : Bool :=
  isWordChar c || isSpaceChar c || c == '-'

/-- `unicodedata.normalize('NFKD', value).encode('ascii', 'ignore')`:
drop every character with no ASCII representation (NFKD is the identity
on the ASCII characters that survive). -/
def asciiIgnore (cs : List Char) : List Char :=
  cs.filter (fun c => decide (c.toNat < 128))

/-- Python `unicode.strip()` restricted to ASCII whitespace: drop leading
and trailing whitespace. -/
def pyStrip (cs : List Char) : List Char :=
  (((cs.dropWhile isSpaceChar).reverse).dropWhile isSpaceChar).reverse

/-- A character matched by the class `[-\s]` of the final
`re.sub(r'[-\s]+', '-', value)`. -/
def isSepChar (c : Char) : Bool :=
  c == '-' || isSpaceChar c

/-- `re.sub(r'[-\s]+', '-', value)`: each maximal run of hyphens and/or
whitespace is replaced by a single hyphen.  The boolean state records
whether we are inside a run that has already emitted its hyphen. -/
def collapseRun : Bool → List Char → List Char
  | _, [] => []
  | inRun, c :: rest =>
    if isSepChar c then
      if inRun then collapseRun true rest
      else '-' :: collapseRun true rest
    else c :: collapseRun false rest

/-- `re.sub(r'[-\s]+', '-', value)` on a whole string. -/
def collapseHyphens (cs : List Char) : List Char :=
  collapseRun false cs

/-- `slugify` (source lines 150-195), ASCII mode (`allow_unicode=False`),
as a function on character lists: ASCII-strip, remove the characters
outside `[\w\s-]`, strip, lowercase, collapse `[-\s]+` runs to `-`. -/
def slugifyChars (cs : List Char) : List Char :=
  collapseHyphens ((pyStrip ((asciiIgnore cs).filter keepChar)).map Char.toLower)

/-- `slugify` on strings. -/
def slugify (s : String) : String :=
  ⟨slugifyChars s.data⟩

/-! ### C5: the concrete slug examples -/

/-- **C5.** The slug function implements the four-step rule (ASCII strip,
remove characters outside letters/digits/underscore/hyphen/whitespace,
trim and lowercase, collapse runs of hyphens/whitespace to one hyphen);
in particular `slug("My Talk!") = "my-talk"` and
`slug("  multiple   spaces--and-hyphens ") = "multiple-spaces-and-hyphens"`. -/
theorem slugify_spec_examples :
    slugify "My Talk!" = "my-talk" ∧
    slugify "  multiple   spaces--and-hyphens " = "multiple-spaces-and-hyphens" := by
  constructor <;> rfl

/-! ## Data model (spec §3)

A `SourceItem` pairs the body file path with the optional metadata path;
the `PresentationMapping` is a Python `dict` keyed by `CanonicalName`,
modelled as a duplicate-key-free association list (insertion order is the
dict's key order; the index generator only ever sorts the keys). -/

/-- One discovered presentation: `(file_path, yaml_file)` from source
line 64. -/
structure SourceItem where
  bodyPath : String
  yamlPath : Option String
deriving DecidableEq

/-- `md_and_yaml_files`: the `CanonicalName → SourceItem` dict. -/
abbrev Mapping := List (String × SourceItem)

/-- `md_and_yaml_files.keys()`. -/
def mkeys (m : Mapping) : List String := m.map Prod.fst

/-- Python 2 `<=` on strings: lexicographic (byte-wise) comparison, a
proper prefix comparing smaller. -/
def strLeChars : List Char → List Char → Bool
  | [], _ => true
  | _ :: _, [] => false
  | a :: as, b :: bs =>
    if a = b then strLeChars as bs
    else decide (a.toNat < b.toNat)

/-- Python 2 `<=` on strings. -/
def pyLe (a b : String) : Bool := strLeChars a.data b.data

/-- The ordering relation used by the embedded `sorted`. -/
def PyLeRel (a b : String) : Prop := pyLe a b = true

instance : DecidableRel PyLeRel := fun a b => by
  unfold PyLeRel; infer_instance

theorem strLeChars_total (as bs : List Char) :
    strLeChars as bs = true ∨ strLeChars bs as = true := by
  induction as generalizing bs with
  | nil => exact Or.inl rfl
  | cons a as ih =>
    cases bs with
    | nil => exact Or.inr rfl
    | cons b bs =>
      by_cases hab : a = b
      · subst hab
        simpa [strLeChars] using ih bs
      · have hba : b ≠ a := fun h => hab h.symm
        have : a.toNat ≠ b.toNat := fun h =>
          hab (Char.eq_of_val_eq (UInt32.toNat.inj h))
        simp only [strLeChars, if_neg hab, if_neg hba, decide_eq_true_eq]
        omega

theorem strLeChars_antisymm (as bs : List Char)
    (h₁ : strLeChars as bs = true) (h₂ : strLeChars bs as = true) : as = bs := by
  induction as generalizing bs with
  | nil =>
    cases bs with
    | nil => rfl
    | cons b bs => simp [strLeChars] at h₂
  | cons a as ih =>
    cases bs with
    | nil => simp [strLeChars] at h₁
    | cons b bs =>
      by_cases hab : a = b
      · subst hab
        simp only [strLeChars, if_pos rfl] at h₁ h₂
        rw [ih bs h₁ h₂]
      · have hba : b ≠ a := fun h => hab h.symm
        simp only [strLeChars, if_neg hab, if_neg hba, decide_eq_true_eq] at h₁ h₂
        omega

theorem strLeChars_trans (as bs cs : List Char)
    (h₁ : strLeChars as bs = true) (h₂ : strLeChars bs cs = true) :
    strLeChars as cs = true := by
  induction as generalizing bs cs with
  | nil => rfl
  | cons a as ih =>
    cases bs with
    | nil => simp [strLeChars] at h₁
    | cons b bs =>
      cases cs with
      | nil => simp [strLeChars] at h₂
      | cons c cs =>
        by_cases hab : a = b <;> by_cases hbc : b = c
        · subst hab; subst hbc
          simp only [strLeChars, if_pos rfl] at h₁ h₂ ⊢
          exact ih bs cs h₁ h₂
        · subst hab
          simp only [strLeChars, if_pos rfl, if_neg hbc] at h₁ h₂ ⊢
          exact h₂
        · subst hbc
          simp only [strLeChars, if_neg hab] at h₁ ⊢
          exact h₁
        · simp only [strLeChars, if_neg hab, if_neg hbc, decide_eq_true_eq] at h₁ h₂
          have hac : a.toNat ≠ c.toNat := by omega
          have : a ≠ c := fun h => hac (by rw [h])
          simp only [strLeChars, if_neg this, decide_eq_true_eq]
          omega

instance : IsTotal String PyLeRel :=
  ⟨fun a b => strLeChars_total a.data b.data⟩

instance : IsTrans String PyLeRel :=
  ⟨fun a b c => strLeChars_trans a.data b.data c.data⟩

instance : IsAntisymm String PyLeRel :=
  ⟨fun a b h₁ h₂ => by
    cases a with
    | mk da =>
      cases b with
      | mk db => exact congrArg String.mk (strLeChars_antisymm da db h₁ h₂)⟩

/-- `sorted(md_and_yaml_files.keys())` (source line 127): Python `sorted`
is an ascending sort under Python 2's byte-wise string comparison; on the
duplicate-free key list of a dict it is the unique sorted arrangement. -/
def sortedKeys (m : Mapping) : List String :=
  List.insertionSort PyLeRel (mkeys m)

/-! ## The index generator (`generate_index_body`, source lines 115-147) -/

/-- Source line 124: `n_cols = min(int(math.ceil(n_presentations / float(10))), 3)`.
For a natural `n`, `int(ceil(n / 10.0)) = (n + 9) / 10` in natural
division. -/
def n_cols (n : Nat) : Nat := min ((n + 9) / 10) 3

/-- Source line 125: `n_per_col = int(round(n_presentations / float(n_cols)))`.
Python 2 `round` rounds half away from zero, so for naturals `n`, `c > 0`,
`int(round(n / float(c))) = (2*n + c) / (2*c)` in natural division.
(When `n_cols n = 0` the Python expression raises `ZeroDivisionError`;
that case is guarded at the use site in `generate_index_body`.) -/
def n_per_col (n : Nat) : Nat := (2 * n + n_cols n) / (2 * n_cols n)

/-- Source line 136: `'[{0}](?p={0})'.format(x)`. -/
def mdLink (s : String) : String := "[" ++ s ++ "](?p=" ++ s ++ ")"

/-- Source line 137: `presentations[i] if i < n_presentations else ''`. -/
def cellName (ps : List String) (n i : Nat) : String :=
  if i < n then ps.getD i "" else ""

/-- Source lines 126-139: `index_md_table`.  The nested loop
`for c in range(n_cols): for r in range(n_per_col): index_md_table[r].append(...)`
appends, at iteration `(c, r)` with running counter `i = c * n_per_col + r`,
one cell to row `r`; so row `r` ends up as the list of links for item
indices `col * n_per_col + r`, `col = 0, …, n_cols - 1`. -/
def indexCells (m : Mapping) : List (List String) :=
  let n := (mkeys m).length
  (List.range (n_per_col n)).map fun r =>
    (List.range (n_cols n)).map fun col =>
      mdLink (cellName (sortedKeys m) n (col * n_per_col n + r))

/-- Source lines 130-131: the header row of `n_cols` empty cells and the
separator row. -/
def indexHeader (c : Nat) : String :=
  "|" ++ String.intercalate "|" (List.replicate c "   ") ++ "|\n" ++
  "|" ++ String.intercalate "|" (List.replicate c "---") ++ "|\n"

/-- Source line 141: `'| {} |\n'.format(' | '.join(row))`. -/
def rowText (row : List String) : String :=
  "| " ++ String.intercalate " | " row ++ " |\n"

/-- `generate_index_body` (source lines 115-147).  When the mapping is
empty, `n_cols = min(int(ceil(0/10.0)), 3) = 0` and line 125 raises
`ZeroDivisionError` (`round(0 / float(0))`); this uncaught exception is
embedded as `none`.  Otherwise the result is the header, one text line
per table row, and a final blank line. -/
def generate_index_body (m : Mapping) : Option String :=
  let n := (mkeys m).length
  if n_cols n = 0 then none
  else some (indexHeader (n_cols n) ++
             String.join ((indexCells m).map rowText) ++ "\n")

/-! ### C4: the column-count formula -/

/-- `(n + 9) / 10` is exactly the ceiling of `n / 10`. -/
theorem natCeil_div_ten (n : Nat) (h : 1 ≤ n) :
    ⌈(n : ℚ) / 10⌉₊ = (n + 9) / 10 := by
  have h9 : 1 ≤ (n + 9) / 10 := Nat.le_div_iff_mul_le (by norm_num) |>.mpr (by omega)
  have hne : (n + 9) / 10 ≠ 0 := by omega
  rw [Nat.ceil_eq_iff hne]
  have hdm := Nat.div_add_mod (n + 9) 10
  have hmlt : (n + 9) % 10 < 10 := Nat.mod_lt _ (by norm_num)
  constructor
  · rw [lt_div_iff₀ (by norm_num : (0:ℚ) < 10)]
    rw [Nat.cast_sub h9]
    push_cast
    have hq : ((10 : ℚ) * (((n + 9) / 10 : ℕ) : ℚ)) ≤ ((n : ℚ) + 9) := by
      exact_mod_cast (by omega : 10 * ((n + 9) / 10) ≤ n + 9)
    nlinarith
  · rw [div_le_iff₀ (by norm_num : (0:ℚ) < 10)]
    have hq : ((n : ℚ)) ≤ 10 * (((n + 9) / 10 : ℕ) : ℚ) := by
      exact_mod_cast (by omega : n ≤ 10 * ((n + 9) / 10))
    linarith

/-- **C4.** For every item count `n ≥ 1` the number of index columns is
`min(ceil(n/10), 3)`; in particular `n = 5, 10 → 1` column,
`n = 11 → 2`, and `n = 21, 100 → 3`. -/
theorem n_cols_eq_min_ceil (n : Nat) (h : 1 ≤ n) :
    n_cols n = min ⌈(n : ℚ) / 10⌉₊ 3 ∧
    n_cols 5 = 1 ∧ n_cols 10 = 1 ∧ n_cols 11 = 2 ∧
    n_cols 21 = 3 ∧ n_cols 100 = 3 := by
  refine ⟨?_, by decide, by decide, by decide, by decide, by decide⟩
  rw [n_cols, natCeil_div_ten n h]

/-- Witness for C4 at `n = 11`. -/
theorem n_cols_eq_min_ceil_witness :
    1 ≤ 11 ∧
    (n_cols 11 = min ⌈(11 : ℚ) / 10⌉₊ 3 ∧
     n_cols 5 = 1 ∧ n_cols 10 = 1 ∧ n_cols 11 = 2 ∧
     n_cols 21 = 3 ∧ n_cols 100 = 3) :=
  ⟨by decide, n_cols_eq_min_ceil 11 (by decide)⟩

/-! ### C1: the empty mapping (`n = 0`) -/

/-- **C1** (code bug, claim evaluated at the failing input).  For `n = 0`
the generator *fails*: `n_cols = min(int(ceil(0/10.0)), 3) = 0`, and
line 125 computes `round(0 / float(0))`, raising `ZeroDivisionError`
(embedded as `none`).  The guard "`c` at least 1" promised by the spec
does not exist in the code, contradicting the function's own docstring
("one column is used if there are 10 or fewer presentations"). -/
theorem generate_index_body_empty_fails :
    generate_index_body ([] : Mapping) = none := rfl

/-! ### C2: column-major distribution drops an item when `n % 3 = 1`, `n ≥ 21` -/

/-- A placeholder `SourceItem`; `generate_index_body` never reads the
values of the mapping. -/
def dummyItem : SourceItem := ⟨"", none⟩

/-- A mapping with 22 entries (single-letter canonical names `a` … `v`,
already in lexicographic order). -/
def m22 : Mapping :=
  ["a", "b", "c", "d", "e", "f", "g", "h", "i", "j", "k",
   "l", "m", "n", "o", "p", "q", "r", "s", "t", "u", "v"].map
    (fun k => (k, dummyItem))

/-- **C2** (code bug, claim evaluated at the failing input).  With
`n = 22` items: `c = min(ceil(22/10), 3) = 3` and
`r = round(22/3) = 7`, so the table has `r * c = 21 < 22` slots and the
lexicographically last canonical name `v` receives *no* link at all —
it is a key of the mapping, yet its link appears zero times in the
table (while e.g. `u` appears once).  This contradicts the claim that
every CanonicalName appears exactly once, and the tool's own docstring
("auto-generated links to each of your presentations"). -/
theorem index_drops_last_item_at_22 :
    "v" ∈ mkeys m22 ∧
    ((indexCells m22).flatten.count (mdLink "v") = 0 ∧
     (indexCells m22).flatten.count (mdLink "u") = 1) := by
  constructor
  · decide
  · constructor <;> decide

/-! ### C3: there is no alternate legacy layout mode -/

/-- Modelled from the spec (§4.2, alternate legacy layout mode), which is
absent from the code: "instead of a table, emit one bare link line per
item, each followed by a blank line, items in lexicographic CanonicalName
order, no column logic at all". -/
def legacy_index_body (m : Mapping) : String :=
  String.join ((sortedKeys m).map fun k => mdLink k ++ "\n\n")

/-- **C3 counterexample.**  The code has no alternate layout mode: the
only index generator, `generate_index_body`, takes nothing but the
mapping (no mode flag exists anywhere in the source) and always emits
the table layout.  At the concrete one-item mapping it produces the
table form, not the bare-link-lines form the claim describes. -/
theorem no_legacy_mode_at_one_item :
    generate_index_body [("a", dummyItem)] =
      some "|   |\n|---|\n| [a](?p=a) |\n\n" ∧
    legacy_index_body [("a", dummyItem)] = "[a](?p=a)\n\n" ∧
    generate_index_body [("a", dummyItem)] ≠
      some (legacy_index_body [("a", dummyItem)]) := by
  refine ⟨rfl, rfl, by decide⟩

/-- **C3 amended.**  No alternate legacy layout mode exists in the code:
`generate_index_body` is the sole index generator, it has no layout
parameter, and for every nonempty mapping its output begins with the
table header `|` (so it is never the bare-link-line format, whose lines
begin with `[`). -/
theorem generate_index_always_table (m : Mapping) (h : mkeys m ≠ []) :
    ∃ t, generate_index_body m = some ("|" ++ t) := by
  have hn : 0 < (mkeys m).length := List.length_pos.mpr h
  have hc : ¬ n_cols (mkeys m).length = 0 := by
    simp only [n_cols]; omega
  refine ⟨String.intercalate "|" (List.replicate (n_cols (mkeys m).length) "   ") ++
    ("|\n" ++ ("|" ++ (String.intercalate "|"
      (List.replicate (n_cols (mkeys m).length) "---") ++
    ("|\n" ++ (String.join ((indexCells m).map rowText) ++ "\n"))))), ?_⟩
  simp only [generate_index_body, indexHeader, if_neg hc, String.append_assoc]

/-- Witness for the amended C3 at a concrete one-item mapping. -/
theorem generate_index_always_table_witness :
    mkeys [("a", dummyItem)] ≠ [] ∧
    ∃ t, generate_index_body [("a", dummyItem)] = some ("|" ++ t) :=
  ⟨by decide, generate_index_always_table [("a", dummyItem)] (by decide)⟩

/-! ### C10: the index depends only on the key set -/

/-- **C10.**  Index generation is deterministic and depends only on the
(set of) canonical-name keys: for mappings whose key lists are
permutations of one another (dict key lists are duplicate-free, so equal
key sets are exactly permuted key lists) — regardless of insertion order
and of the associated `SourceItem` values — `generate_index_body`
produces identical output, because it sorts the keys and never reads the
values. -/
theorem generate_index_body_depends_only_on_keys (m₁ m₂ : Mapping)
    (h : (mkeys m₁).Perm (mkeys m₂)) :
    generate_index_body m₁ = generate_index_body m₂ := by
  have hs : sortedKeys m₁ = sortedKeys m₂ :=
    List.eq_of_perm_of_sorted
      (((List.perm_insertionSort _ _).trans h).trans
        (List.perm_insertionSort _ _).symm)
      (List.sorted_insertionSort _ _) (List.sorted_insertionSort _ _)
  have hn : (mkeys m₁).length = (mkeys m₂).length := h.length_eq
  simp only [generate_index_body, indexCells]
  rw [hn, hs]

/-- Witness for C10: two mappings with the same keys in different order
and with different values produce the same index body. -/
theorem generate_index_body_depends_only_on_keys_witness :
    (mkeys [("b", ⟨"B.md", none⟩), ("a", ⟨"x", some "y"⟩)]).Perm
      (mkeys [("a", dummyItem), ("b", dummyItem)]) ∧
    generate_index_body [("b", ⟨"B.md", none⟩), ("a", ⟨"x", some "y"⟩)] =
      generate_index_body [("a", dummyItem), ("b", dummyItem)] :=
  ⟨by decide, generate_index_body_depends_only_on_keys _ _ (by decide)⟩

/-! ## Discovery and pairing (`main`, source lines 53-64)

The `os.walk` of the source tree is modelled as its observable output: a
list of `(root, files-in-root)` pairs in walk order.  The filesystem
`os.path.isfile` queries are an oracle `isFile : String → Bool`. -/

/-- `os.path.join(a, b)` for a relative second component. -/
def pathJoin (a b : String) : String := a ++ "/" ++ b

/-- Python `file.endswith('.md')` (source line 56): suffix test on the
character list. -/
def pyEndsWith (s suffix : String) : Bool :=
  List.isSuffixOf suffix.data s.data

/-- The stem part of `os.path.splitext` on a bare filename: cut at the
last dot, unless every character before that dot is itself a dot (a
leading-dots name such as `.md` has no extension). -/
def dropExt (cs : List Char) : List Char :=
  let r := cs.reverse
  let ext := r.takeWhile (fun c => !(c = '.'))
  if ext.length = r.length then cs
  else
    let pre := (r.drop (ext.length + 1)).reverse
    if pre.all (fun c => c = '.') then cs else pre

/-- `os.path.splitext(file)[0]` (source line 58). -/
def stem (f : String) : String := ⟨dropExt f.data⟩

/-- Metadata resolution (source lines 59-63): prefer `root/rawName.yaml`
in the body file's own directory; else fall back to `srcDir/common.yaml`
in the source root; else no metadata (`None`). -/
def resolveYaml (isFile : String → Bool) (srcDir root presName : String) :
    Option String :=
  let y := pathJoin root (presName ++ ".yaml")
  if isFile y then some y
  else
    let c := pathJoin srcDir "common.yaml"
    if isFile c then some c
    else none

/-- The `SourceItem` recorded for one discovered body file
(source lines 57-64). -/
def mkItem (isFile : String → Bool) (srcDir root file : String) : SourceItem :=
  ⟨pathJoin root file, resolveYaml isFile srcDir root (stem file)⟩

/-- Python dict assignment `d[k] = v`: replace the value of an existing
key in place, else append the new pair. -/
def dinsert : Mapping → String → SourceItem → Mapping
  | [], k, v => [(k, v)]
  | (k', v') :: rest, k, v =>
    if k' = k then (k, v) :: rest else (k', v') :: dinsert rest k v

/-- Python dict lookup `d[k]`. -/
def dlookup : Mapping → String → Option SourceItem
  | [], _ => none
  | (k', v) :: rest, k => if k' = k then some v else dlookup rest k

/-- The body of the inner discovery loop (source lines 55-64): a file
ending in `.md` is slugged and inserted (overwriting on collision);
any other file is ignored. -/
def processFile (isFile : String → Bool) (srcDir : String) (m : Mapping)
    (root file : String) : Mapping :=
  if pyEndsWith file ".md" then
    dinsert m (slugify (stem file)) (mkItem isFile srcDir root file)
  else m

/-- The `(root, file)` pairs visited by the two nested loops
`for root, _, files in os.walk(src_dir): for file in files:`,
in visit order. -/
def walkFiles (walk : List (String × List String)) : List (String × String) :=
  (walk.map (fun rf => rf.2.map (fun f => (rf.1, f)))).flatten

/-- The discovery loop (source lines 53-64): fold `processFile` over the
walk, starting from the empty dict `md_and_yaml_files = {}`. -/
def buildMapping (isFile : String → Bool) (srcDir : String)
    (walk : List (String × List String)) : Mapping :=
  (walkFiles walk).foldl
    (fun m e => processFile isFile srcDir m e.1 e.2) []

/-! ### C6: metadata resolution order -/

/-- **C6.**  For every discovered body file, metadata resolution follows
exactly this order: the same-directory `rawName.yaml` when it exists;
otherwise the source root's `common.yaml` when it exists; otherwise no
metadata (absence is not an error: the result is simply `none`, the
function is total). -/
theorem resolveYaml_resolution_order (isFile : String → Bool)
    (srcDir root name : String) :
    (isFile (pathJoin root (name ++ ".yaml")) = true →
      resolveYaml isFile srcDir root name =
        some (pathJoin root (name ++ ".yaml"))) ∧
    (isFile (pathJoin root (name ++ ".yaml")) = false →
      isFile (pathJoin srcDir "common.yaml") = true →
      resolveYaml isFile srcDir root name =
        some (pathJoin srcDir "common.yaml")) ∧
    (isFile (pathJoin root (name ++ ".yaml")) = false →
      isFile (pathJoin srcDir "common.yaml") = false →
      resolveYaml isFile srcDir root name = none) := by
  refine ⟨fun h₁ => ?_, fun h₁ h₂ => ?_, fun h₁ h₂ => ?_⟩ <;>
    simp [resolveYaml, h₁] <;> simp [h₂]

/-- Witness for C6: a filesystem in which only the shared
`SRC/common.yaml` exists sends the item to the fallback file. -/
theorem resolveYaml_resolution_order_witness :
    (fun s => s == "SRC/common.yaml") (pathJoin "SRC/sub" ("talk" ++ ".yaml")) = false ∧
    (fun s => s == "SRC/common.yaml") (pathJoin "SRC" "common.yaml") = true ∧
    resolveYaml (fun s => s == "SRC/common.yaml") "SRC" "SRC/sub" "talk" =
      some (pathJoin "SRC" "common.yaml") :=
  ⟨rfl, rfl,
    (resolveYaml_resolution_order (fun s => s == "SRC/common.yaml")
      "SRC" "SRC/sub" "talk").2.1 rfl rfl⟩

/-! ### C7: collisions overwrite, last-discovered wins -/

/-- Whether a walk event `(root, file)` contributes an entry with
canonical name `k`. -/
def hitsKey (k : String) (e : String × String) : Bool :=
  pyEndsWith e.2 ".md" && (slugify (stem e.2) == k)

theorem dlookup_dinsert_self (m : Mapping) (k : String) (v : SourceItem) :
    dlookup (dinsert m k v) k = some v := by
  induction m with
  | nil => simp [dinsert, dlookup]
  | cons p rest ih =>
    by_cases h : p.1 = k
    · simp [dinsert, h, dlookup]
    · simp [dinsert, h, dlookup, ih]

theorem dlookup_dinsert_ne (m : Mapping) (k k' : String) (v : SourceItem)
    (h : k ≠ k') : dlookup (dinsert m k v) k' = dlookup m k' := by
  induction m with
  | nil => simp [dinsert, dlookup, h]
  | cons p rest ih =>
    by_cases hp : p.1 = k
    · simp [dinsert, hp, dlookup, h]
    · simp [dinsert, hp, dlookup, ih]

theorem mkeys_dinsert (m : Mapping) (k : String) (v : SourceItem) :
    mkeys (dinsert m k v) =
      if k ∈ mkeys m then mkeys m else mkeys m ++ [k] := by
  induction m with
  | nil => simp [dinsert, mkeys]
  | cons p rest ih =>
    by_cases hp : p.1 = k
    · simp [dinsert, hp, mkeys]
    · have hkp : ¬ (k = p.1) := fun h => hp h.symm
      simp only [mkeys, List.map_cons] at ih ⊢
      rw [show dinsert (p :: rest) k v = p :: dinsert rest k v by
        obtain ⟨pk, pv⟩ := p; simp [dinsert, hp]]
      rw [List.map_cons, ih]
      by_cases hk : k ∈ List.map Prod.fst rest
      · rw [if_pos hk, if_pos (List.mem_cons_of_mem _ hk)]
      · rw [if_neg hk, if_neg (by simp [hkp, hk]), List.cons_append]

theorem mem_mkeys_dinsert (m : Mapping) (k k' : String) (v : SourceItem) :
    k' ∈ mkeys (dinsert m k v) ↔ k' = k ∨ k' ∈ mkeys m := by
  rw [mkeys_dinsert]
  by_cases h : k ∈ mkeys m
  · simp only [if_pos h]
    constructor
    · exact Or.inr
    · rintro (rfl | hm)
      · exact h
      · exact hm
  · simp only [if_neg h, List.mem_append, List.mem_singleton]
    tauto

theorem nodup_mkeys_dinsert (m : Mapping) (k : String) (v : SourceItem)
    (h : (mkeys m).Nodup) : (mkeys (dinsert m k v)).Nodup := by
  rw [mkeys_dinsert]
  by_cases hk : k ∈ mkeys m
  · simpa [hk] using h
  · simp only [if_neg hk]
    simpa [List.nodup_append] using ⟨h, hk⟩

/-- The key fold lemma: after processing the event list `l` starting
from dict `m₀`, looking up `k` returns the item of the *last* event that
hits `k`, or falls through to `m₀`. -/
theorem dlookup_foldl_processFile (isFile : String → Bool) (srcDir k : String) :
    ∀ (l : List (String × String)) (m₀ : Mapping),
      dlookup (l.foldl (fun m e => processFile isFile srcDir m e.1 e.2) m₀) k =
        ((l.filter (hitsKey k)).getLast?).elim (dlookup m₀ k)
          (fun e => some (mkItem isFile srcDir e.1 e.2)) := by
  intro l
  induction l with
  | nil => intro m₀; simp
  | cons e l ih =>
    intro m₀
    rw [List.foldl_cons, ih]
    by_cases he : hitsKey k e = true
    · have he' := he
      simp only [hitsKey, Bool.and_eq_true, beq_iff_eq] at he'
      obtain ⟨hmd, hslug⟩ := he'
      have hstep : processFile isFile srcDir m₀ e.1 e.2 =
          dinsert m₀ k (mkItem isFile srcDir e.1 e.2) := by
        rw [processFile, if_pos hmd, hslug]
      rw [List.filter_cons_of_pos he]
      cases hl : l.filter (hitsKey k) with
      | nil =>
        simp [hstep, dlookup_dinsert_self]
      | cons e' l' =>
        rw [List.getLast?_cons_cons]
        have : ∃ x, (e' :: l').getLast? = some x :=
          ⟨(e' :: l').getLast (by simp), List.getLast?_eq_getLast _ (by simp)⟩
        obtain ⟨x, hx⟩ := this
        rw [hx]
        rfl
    · have hstep : dlookup (processFile isFile srcDir m₀ e.1 e.2) k =
          dlookup m₀ k := by
        rw [processFile]
        by_cases hmd : pyEndsWith e.2 ".md" = true
        · rw [if_pos hmd]
          refine dlookup_dinsert_ne _ _ _ _ ?_
          intro hk
          exact he (by simp [hitsKey, hmd, hk])
        · rw [if_neg hmd]
      rw [List.filter_cons_of_neg (by simpa using he)]
      cases hl : l.filter (hitsKey k) with
      | nil => simp only [List.getLast?_nil, Option.elim, hstep]
      | cons e' l' => rfl

/-- After the fold, `k` is a key iff it was one already or some event
hit it. -/
theorem mem_mkeys_foldl_processFile (isFile : String → Bool) (srcDir k : String) :
    ∀ (l : List (String × String)) (m₀ : Mapping),
      k ∈ mkeys (l.foldl (fun m e => processFile isFile srcDir m e.1 e.2) m₀) ↔
        k ∈ mkeys m₀ ∨ l.filter (hitsKey k) ≠ [] := by
  intro l
  induction l with
  | nil => intro m₀; simp
  | cons e l ih =>
    intro m₀
    rw [List.foldl_cons, ih]
    by_cases he : hitsKey k e = true
    · have he' := he
      simp only [hitsKey, Bool.and_eq_true, beq_iff_eq] at he'
      obtain ⟨hmd, hslug⟩ := he'
      rw [List.filter_cons_of_pos he]
      simp only [processFile, if_pos hmd, hslug, mem_mkeys_dinsert]
      simp
    · rw [List.filter_cons_of_neg (by simpa using he)]
      have : k ∈ mkeys (processFile isFile srcDir m₀ e.1 e.2) ↔ k ∈ mkeys m₀ := by
        rw [processFile]
        by_cases hmd : pyEndsWith e.2 ".md" = true
        · rw [if_pos hmd, mem_mkeys_dinsert]
          have : k ≠ slugify (stem e.2) := by
            intro hk
            exact he (by simp [hitsKey, hmd, hk.symm])
          simp [this]
        · rw [if_neg hmd]
      rw [this]

/-- The fold preserves duplicate-freeness of the key list. -/
theorem nodup_mkeys_foldl_processFile (isFile : String → Bool) (srcDir : String) :
    ∀ (l : List (String × String)) (m₀ : Mapping),
      (mkeys m₀).Nodup →
      (mkeys (l.foldl (fun m e => processFile isFile srcDir m e.1 e.2) m₀)).Nodup := by
  intro l
  induction l with
  | nil => intro m₀ h; simpa using h
  | cons e l ih =>
    intro m₀ h
    rw [List.foldl_cons]
    refine ih _ ?_
    rw [processFile]
    by_cases hmd : pyEndsWith e.2 ".md" = true
    · rw [if_pos hmd]; exact nodup_mkeys_dinsert _ _ _ h
    · rw [if_neg hmd]; exact h

/-- **C7.**  Overwrite on collision, last-discovered wins: whenever the
walk's `.md` events whose rawName slugs to canonical name `k` are
nonempty — in particular whenever two distinct rawNames slug to the same
`k` — the final mapping has *exactly one* entry for `k`, and it is the
`SourceItem` of the last such body file in walk order. -/
theorem buildMapping_last_wins (isFile : String → Bool) (srcDir : String)
    (walk : List (String × List String)) (k : String) (e : String × String)
    (h : ((walkFiles walk).filter (hitsKey k)).getLast? = some e) :
    dlookup (buildMapping isFile srcDir walk) k =
      some (mkItem isFile srcDir e.1 e.2) ∧
    (mkeys (buildMapping isFile srcDir walk)).count k = 1 := by
  constructor
  · rw [buildMapping, dlookup_foldl_processFile, h]
    rfl
  · have hne : (walkFiles walk).filter (hitsKey k) ≠ [] := by
      intro h0; rw [h0] at h; simp at h
    have hmem : k ∈ mkeys (buildMapping isFile srcDir walk) := by
      rw [buildMapping]
      exact (mem_mkeys_foldl_processFile isFile srcDir k _ _).mpr (Or.inr hne)
    have hnd : (mkeys (buildMapping isFile srcDir walk)).Nodup := by
      rw [buildMapping]
      exact nodup_mkeys_foldl_processFile isFile srcDir _ _ (by simp [mkeys])
    exact List.count_eq_one_of_mem hnd hmem

/-- Witness for C7: two distinct rawNames `A` and `a` in one directory
both slug to `a`; the mapping keeps exactly one entry, the
last-discovered `a.md`. -/
theorem buildMapping_last_wins_witness :
    ((walkFiles [("r", ["A.md", "a.md"])]).filter (hitsKey "a")).getLast? =
      some ("r", "a.md") ∧
    (dlookup (buildMapping (fun _ => false) "s" [("r", ["A.md", "a.md"])]) "a" =
      some (mkItem (fun _ => false) "s" "r" "a.md") ∧
    (mkeys (buildMapping (fun _ => false) "s" [("r", ["A.md", "a.md"])])).count "a" = 1) :=
  ⟨by decide,
   buildMapping_last_wins (fun _ => false) "s" [("r", ["A.md", "a.md"])]
     "a" ("r", "a.md") (by decide)⟩

/-! ### C9: slugs are fixed points of slugging

Character-class facts, stated in terms of `Char.toNat` so that `omega`
can combine them. -/

/-- Characters with equal code points are equal. -/
theorem char_toNat_inj {a b : Char} (h : a.toNat = b.toNat) : a = b :=
  Char.eq_of_val_eq (UInt32.toNat.inj h)

theorem char_eq_iff_toNat (c d : Char) : c = d ↔ c.toNat = d.toNat :=
  ⟨fun h => by rw [h], char_toNat_inj⟩

theorem charToNat_ofNat (n : Nat) (h : n < 55296) : (Char.ofNat n).toNat = n := by
  unfold Char.ofNat
  rw [dif_pos (Or.inl h : Nat.isValidChar n)]
  simp [Char.ofNatAux, Char.toNat, UInt32.toNat, UInt32.ofNat']

theorem isUpper_iff (c : Char) :
    c.isUpper = true ↔ 65 ≤ c.toNat ∧ c.toNat ≤ 90 := by
  simp only [Char.isUpper, Bool.and_eq_true, decide_eq_true_eq, ge_iff_le,
    UInt32.le_def, BitVec.le_def, UInt32.toNat]
  exact Iff.rfl

theorem isLower_iff (c : Char) :
    c.isLower = true ↔ 97 ≤ c.toNat ∧ c.toNat ≤ 122 := by
  simp only [Char.isLower, Bool.and_eq_true, decide_eq_true_eq, ge_iff_le,
    UInt32.le_def, BitVec.le_def, UInt32.toNat]
  exact Iff.rfl

theorem isDigit_iff (c : Char) :
    c.isDigit = true ↔ 48 ≤ c.toNat ∧ c.toNat ≤ 57 := by
  simp only [Char.isDigit, Bool.and_eq_true, decide_eq_true_eq, ge_iff_le,
    UInt32.le_def, BitVec.le_def, UInt32.toNat]
  exact Iff.rfl

theorem isSpaceChar_iff (c : Char) :
    isSpaceChar c = true ↔
      c.toNat = 32 ∨ c.toNat = 9 ∨ c.toNat = 10 ∨ c.toNat = 13 ∨
      c.toNat = 11 ∨ c.toNat = 12 := by
  have e1 : (' ').toNat = 32 := rfl
  have e2 : ('\t').toNat = 9 := rfl
  have e3 : ('\n').toNat = 10 := rfl
  have e4 : ('\r').toNat = 13 := rfl
  have e5 : ('\x0b').toNat = 11 := rfl
  have e6 : ('\x0c').toNat = 12 := rfl
  simp only [isSpaceChar, Bool.or_eq_true, beq_iff_eq, char_eq_iff_toNat,
    e1, e2, e3, e4, e5, e6]
  try tauto

theorem isWordChar_iff (c : Char) :
    isWordChar c = true ↔
      (65 ≤ c.toNat ∧ c.toNat ≤ 90) ∨ (97 ≤ c.toNat ∧ c.toNat ≤ 122) ∨
      (48 ≤ c.toNat ∧ c.toNat ≤ 57) ∨ c.toNat = 95 := by
  have e95 : ('_').toNat = 95 := rfl
  simp only [isWordChar, Char.isAlpha, Bool.or_eq_true, beq_iff_eq,
    char_eq_iff_toNat, isUpper_iff, isLower_iff, isDigit_iff, e95]
  try tauto

theorem keepChar_iff (c : Char) :
    keepChar c = true ↔
      (65 ≤ c.toNat ∧ c.toNat ≤ 90) ∨ (97 ≤ c.toNat ∧ c.toNat ≤ 122) ∨
      (48 ≤ c.toNat ∧ c.toNat ≤ 57) ∨ c.toNat = 95 ∨
      c.toNat = 32 ∨ c.toNat = 9 ∨ c.toNat = 10 ∨ c.toNat = 13 ∨
      c.toNat = 11 ∨ c.toNat = 12 ∨ c.toNat = 45 := by
  have e45 : ('-').toNat = 45 := rfl
  simp only [keepChar, Bool.or_eq_true, beq_iff_eq, char_eq_iff_toNat,
    isWordChar_iff, isSpaceChar_iff, e45]
  try tauto

theorem isSepChar_iff (c : Char) :
    isSepChar c = true ↔
      c.toNat = 45 ∨ c.toNat = 32 ∨ c.toNat = 9 ∨ c.toNat = 10 ∨
      c.toNat = 13 ∨ c.toNat = 11 ∨ c.toNat = 12 := by
  have e45 : ('-').toNat = 45 := rfl
  simp only [isSepChar, Bool.or_eq_true, beq_iff_eq, char_eq_iff_toNat,
    isSpaceChar_iff, e45]
  try tauto

/-- The characters a finished slug may contain: lowercase ASCII letters,
digits, underscore and hyphen. -/
def goodSlugChar (c : Char) : Bool :=
  c.isLower || c.isDigit || c == '_' || c == '-'

theorem goodSlugChar_iff (c : Char) :
    goodSlugChar c = true ↔
      (97 ≤ c.toNat ∧ c.toNat ≤ 122) ∨ (48 ≤ c.toNat ∧ c.toNat ≤ 57) ∨
      c.toNat = 95 ∨ c.toNat = 45 := by
  have e95 : ('_').toNat = 95 := rfl
  have e45 : ('-').toNat = 45 := rfl
  simp only [goodSlugChar, Bool.or_eq_true, beq_iff_eq, char_eq_iff_toNat,
    isLower_iff, isDigit_iff, e95, e45]
  try tauto

theorem toLower_eq_self_of_not_upper (c : Char)
    (h : ¬ (65 ≤ c.toNat ∧ c.toNat ≤ 90)) : c.toLower = c := by
  unfold Char.toLower
  exact if_neg (by simpa [ge_iff_le] using h)

theorem toNat_toLower_of_upper (c : Char) (h₁ : 65 ≤ c.toNat)
    (h₂ : c.toNat ≤ 90) : (c.toLower).toNat = c.toNat + 32 := by
  unfold Char.toLower
  rw [if_pos ⟨h₁, h₂⟩]
  exact charToNat_ofNat _ (by omega)

/-- Every character kept by the removal step lowercases to a slug-safe
character or a whitespace character. -/
theorem toLower_keepChar (c : Char) (h : keepChar c = true) :
    (goodSlugChar c.toLower || isSpaceChar c.toLower) = true := by
  rw [Bool.or_eq_true, goodSlugChar_iff, isSpaceChar_iff]
  have hk := (keepChar_iff c).mp h
  by_cases hu : 65 ≤ c.toNat ∧ c.toNat ≤ 90
  · rw [toNat_toLower_of_upper c hu.1 hu.2]
    omega
  · rw [toLower_eq_self_of_not_upper c hu]
    omega

/-- A list that does not start with a separator character. -/
def noSepHead : List Char → Bool
  | [] => true
  | c :: _ => !(isSepChar c)

/-- A list with no two adjacent separator characters. -/
def noDoubleSep : List Char → Bool
  | [] => true
  | [_] => true
  | a :: b :: rest => (!(isSepChar a && isSepChar b)) && noDoubleSep (b :: rest)

/-- While inside a run, the collapse never emits a separator first. -/
theorem noSepHead_collapseRun (l : List Char) :
    noSepHead (collapseRun true l) = true := by
  induction l with
  | nil => rfl
  | cons c rest ih =>
    by_cases hc : isSepChar c = true
    · simpa [collapseRun, hc] using ih
    · simp [collapseRun, hc, noSepHead]

/-- The collapse never emits two adjacent separators. -/
theorem noDoubleSep_collapseRun (l : List Char) :
    ∀ b, noDoubleSep (collapseRun b l) = true := by
  induction l with
  | nil => intro b; rfl
  | cons c rest ih =>
    intro b
    by_cases hc : isSepChar c = true
    · cases b with
      | true => simpa [collapseRun, hc] using ih true
      | false =>
        rw [show collapseRun false (c :: rest) = '-' :: collapseRun true rest
          from by simp [collapseRun, hc]]
        have hh := noSepHead_collapseRun rest
        have ht := ih true
        cases hx : collapseRun true rest with
        | nil => rfl
        | cons x xs =>
          rw [hx] at hh ht
          have hns : isSepChar x = false := by simpa [noSepHead] using hh
          simp [noDoubleSep, hns, ht]
    · rw [show collapseRun b (c :: rest) = c :: collapseRun false rest
        from by simp [collapseRun, hc]]
      have ht := ih false
      cases hx : collapseRun false rest with
      | nil => rfl
      | cons x xs =>
        rw [hx] at ht
        simp only [noDoubleSep, Bool.and_eq_true, Bool.not_eq_true']
        refine ⟨?_, ht⟩
        simp [Bool.not_eq_true] at hc
        simp [hc]

/-- Collapsing a list of whitespace-or-good characters yields only
slug-safe characters. -/
theorem all_good_collapseRun (l : List Char)
    (h : ∀ c ∈ l, (goodSlugChar c || isSpaceChar c) = true) :
    ∀ b, ∀ c ∈ collapseRun b l, goodSlugChar c = true := by
  induction l with
  | nil => intro b c hc; simp [collapseRun] at hc
  | cons a rest ih =>
    have ha := h a (by simp)
    have hrest : ∀ c ∈ rest, (goodSlugChar c || isSpaceChar c) = true :=
      fun c hc => h c (List.mem_cons_of_mem _ hc)
    intro b c hc
    by_cases hs : isSepChar a = true
    · cases b with
      | true =>
        rw [show collapseRun true (a :: rest) = collapseRun true rest
          from by simp [collapseRun, hs]] at hc
        exact ih hrest true c hc
      | false =>
        rw [show collapseRun false (a :: rest) = '-' :: collapseRun true rest
          from by simp [collapseRun, hs]] at hc
        rcases List.mem_cons.mp hc with rfl | hc'
        · decide
        · exact ih hrest true c hc'
    · rw [show collapseRun b (a :: rest) = a :: collapseRun false rest
        from by simp [collapseRun, hs]] at hc
      rcases List.mem_cons.mp hc with rfl | hc'
      · rcases Bool.or_eq_true .. |>.mp ha with hg | hsp
        · exact hg
        · exact absurd ((isSepChar_iff c).mpr (by
            have := (isSpaceChar_iff c).mp hsp; omega)) hs
      · exact ih hrest false c hc'

/-- A slug-safe list with no adjacent separators (and, when already
inside a run, no leading separator) is a fixed point of the collapse. -/
theorem collapseRun_fixed (l : List Char) :
    ∀ b, (∀ c ∈ l, goodSlugChar c = true) → noDoubleSep l = true →
      (b = true → noSepHead l = true) → collapseRun b l = l := by
  induction l with
  | nil => intro b _ _ _; rfl
  | cons a rest ih =>
    intro b hg hd hb
    have ha : goodSlugChar a = true := hg a (by simp)
    have hgrest : ∀ c ∈ rest, goodSlugChar c = true :=
      fun c hc => hg c (List.mem_cons_of_mem _ hc)
    by_cases hs : isSepChar a = true
    · have ha45 : a.toNat = 45 := by
        have h1 := (goodSlugChar_iff a).mp ha
        have h2 := (isSepChar_iff a).mp hs
        omega
      have haeq : a = '-' := char_toNat_inj ha45
      cases b with
      | true =>
        exfalso
        have := hb rfl
        simp [noSepHead, hs] at this
      | false =>
        rw [show collapseRun false (a :: rest) = '-' :: collapseRun true rest
          from by simp [collapseRun, hs]]
        have hrest_nd : noDoubleSep rest = true := by
          cases rest with
          | nil => rfl
          | cons x xs =>
            simp only [noDoubleSep, Bool.and_eq_true] at hd
            exact hd.2
        have hrest_head : noSepHead rest = true := by
          cases rest with
          | nil => rfl
          | cons x xs =>
            simp only [noDoubleSep, Bool.and_eq_true, Bool.not_eq_true',
              Bool.and_eq_false_iff] at hd
            rcases hd.1 with h | h
            · rw [h] at hs; exact absurd hs (by simp)
            · simp [noSepHead, h]
        rw [ih true hgrest hrest_nd (fun _ => hrest_head), haeq]
    · rw [show collapseRun b (a :: rest) = a :: collapseRun false rest
        from by simp [collapseRun, hs]]
      have hrest_nd : noDoubleSep rest = true := by
        cases rest with
        | nil => rfl
        | cons x xs =>
          simp only [noDoubleSep, Bool.and_eq_true] at hd
          exact hd.2
      rw [ih false hgrest hrest_nd (fun h => absurd h (by simp))]

theorem dropWhile_eq_self_of_all (p : Char → Bool) (l : List Char)
    (h : ∀ c ∈ l, p c = false) : l.dropWhile p = l := by
  cases l with
  | nil => rfl
  | cons a rest =>
    rw [List.dropWhile_cons, if_neg]
    rw [h a (by simp)]
    simp

theorem mem_of_mem_pyStrip {l : List Char} {c : Char} (h : c ∈ pyStrip l) :
    c ∈ l := by
  unfold pyStrip at h
  have h1 := List.mem_reverse.mp h
  have h2 := (List.dropWhile_sublist _ (l := (l.dropWhile isSpaceChar).reverse)).subset h1
  have h3 := List.mem_reverse.mp h2
  exact (List.dropWhile_sublist _ (l := l)).subset h3

/-- Every character of a finished slug is slug-safe. -/
theorem all_good_slugifyChars (cs : List Char) :
    ∀ c ∈ slugifyChars cs, goodSlugChar c = true := by
  intro c hc
  unfold slugifyChars collapseHyphens at hc
  refine all_good_collapseRun _ ?_ false c hc
  intro d hd
  obtain ⟨e, he, rfl⟩ := List.mem_map.mp hd
  have hkeep : keepChar e = true := List.of_mem_filter (mem_of_mem_pyStrip he)
  exact toLower_keepChar e hkeep

/-- A finished slug is a fixed point of `slugifyChars`. -/
theorem slugifyChars_fixed (cs : List Char) :
    slugifyChars (slugifyChars cs) = slugifyChars cs := by
  have hg : ∀ c ∈ slugifyChars cs, goodSlugChar c = true := all_good_slugifyChars cs
  have h128 : asciiIgnore (slugifyChars cs) = slugifyChars cs := by
    unfold asciiIgnore
    rw [List.filter_eq_self]
    intro c hc
    have h1 := (goodSlugChar_iff c).mp (hg c hc)
    exact decide_eq_true (by omega)
  have hkeep : (slugifyChars cs).filter keepChar = slugifyChars cs := by
    rw [List.filter_eq_self]
    intro c hc
    have h1 := (goodSlugChar_iff c).mp (hg c hc)
    rw [keepChar_iff]
    omega
  have hnospace : ∀ c ∈ slugifyChars cs, isSpaceChar c = false := by
    intro c hc
    cases hsp : isSpaceChar c with
    | false => rfl
    | true =>
      exfalso
      have h1 := (goodSlugChar_iff c).mp (hg c hc)
      have h2 := (isSpaceChar_iff c).mp hsp
      omega
  have hstrip : pyStrip (slugifyChars cs) = slugifyChars cs := by
    unfold pyStrip
    rw [dropWhile_eq_self_of_all _ _ hnospace,
      dropWhile_eq_self_of_all _ _
        (fun c hc => hnospace c (List.mem_reverse.mp hc)),
      List.reverse_reverse]
  have hlower : (slugifyChars cs).map Char.toLower = slugifyChars cs := by
    have : ∀ c ∈ slugifyChars cs, Char.toLower c = id c := by
      intro c hc
      have h1 := (goodSlugChar_iff c).mp (hg c hc)
      exact toLower_eq_self_of_not_upper c (by omega)
    rw [List.map_congr_left this, List.map_id]
  have hcollapse : collapseHyphens (slugifyChars cs) = slugifyChars cs := by
    unfold collapseHyphens
    refine collapseRun_fixed _ false hg ?_ (fun h => absurd h (by simp))
    have := noDoubleSep_collapseRun
      ((pyStrip ((asciiIgnore cs).filter keepChar)).map Char.toLower) false
    exact this
  show collapseHyphens ((pyStrip ((asciiIgnore (slugifyChars cs)).filter
    keepChar)).map Char.toLower) = slugifyChars cs
  rw [h128, hkeep, hstrip, hlower, hcollapse]

/-- **C9.**  The slug function is idempotent in ASCII mode — every slug
is a fixed point of slugging — and every slug consists only of lowercase
ASCII letters, digits, underscores and hyphens (no whitespace, no
uppercase). -/
theorem slugify_idempotent_and_charset (s : String) :
    slugify (slugify s) = slugify s ∧
    (slugify s).data.all goodSlugChar = true := by
  constructor
  · show (⟨slugifyChars (slugifyChars s.data)⟩ : String) = ⟨slugifyChars s.data⟩
    exact congrArg String.mk (slugifyChars_fixed s.data)
  · rw [List.all_eq_true]
    intro c hc
    exact all_good_slugifyChars s.data c hc

/-! ## Materialization error handling (`main`, source lines 68-79)

The loop body per mapping entry is

```
try:            os.makedirs(presentation_dir)
except OSError: pass
copy2(md_file, ...)                    # PITCHME.md
if yaml_file is not None: copy2(...)   # PITCHME.yaml
```

The outcome of each underlying filesystem call is an oracle input; an
uncaught exception is `Except.error`.  In Python 2 every `os.makedirs`
failure — directory already exists (`EEXIST`), permission denied
(`EACCES`), disk full (`ENOSPC`), … — raises `OSError`, and the bare
`except OSError: pass` swallows all of them, not only `EEXIST`.  The
`copy2` calls are unguarded, so their failures propagate. -/

/-- The `errno` classes of interest for a failed filesystem call. -/
inductive OSErrorKind
  | eexist
  | eacces
  | enospc
  | otherErr
deriving DecidableEq

/-- Outcome of one underlying filesystem call. -/
inductive SysOutcome
  | ok
  | err (e : OSErrorKind)
deriving DecidableEq

/-- `try: os.makedirs(...) except OSError: pass` (source lines 70-73):
every `OSError`, whatever its errno, is caught and discarded. -/
def makedirsStep (o : SysOutcome) : Except OSErrorKind Unit :=
  match o with
  | .ok => .ok ()
  | .err _ => .ok ()

/-- An unguarded `copy2(...)` call (source lines 77-79): a failure
propagates. -/
def copyStep (o : SysOutcome) : Except OSErrorKind Unit :=
  match o with
  | .ok => .ok ()
  | .err e => .error e

/-- Materializing one mapping entry (source lines 68-79), given the
outcomes of its directory creation, its body copy, and (when metadata is
present) its metadata copy. -/
def materializeOne (md body : SysOutcome) (yaml : Option SysOutcome) :
    Except OSErrorKind Unit := do
  let _ ← makedirsStep md
  let _ ← copyStep body
  match yaml with
  | none => pure ()
  | some y => copyStep y

/-- The materialization loop over all mapping entries: sequential, and
the first uncaught exception aborts the remainder of the run. -/
def materializeAll :
    List (SysOutcome × SysOutcome × Option SysOutcome) →
      Except OSErrorKind Unit
  | [] => .ok ()
  | e :: rest => do
    let _ ← materializeOne e.1 e.2.1 e.2.2
    materializeAll rest

/-! ### C8: which failures are swallowed -/

/-- **C8 counterexample.**  A *permission denied* failure of the
directory-creation call is silently swallowed — the entry goes on to its
copy steps and the run does not abort — contradicting the claim that
only directory-already-exists is swallowed while "any other filesystem
failure (such as permission denied or disk full) propagates": the bare
`except OSError: pass` catches every `OSError` alike. -/
theorem makedirs_eacces_swallowed :
    materializeOne (SysOutcome.err OSErrorKind.eacces) SysOutcome.ok none =
      Except.ok () := rfl

/-- **C8 amended.**  During materialization, *every* `OSError` of the
directory-creation call is swallowed — directory-already-exists, but
equally permission-denied and disk-full — while any failure of the body
copy or of the metadata copy propagates and aborts the run at the first
failing entry, with no partial-completion tracking or rollback. -/
theorem materialize_error_semantics (md : SysOutcome) (e : OSErrorKind)
    (y : Option SysOutcome)
    (rest : List (SysOutcome × SysOutcome × Option SysOutcome)) :
    materializeOne md SysOutcome.ok none = Except.ok () ∧
    materializeOne md (SysOutcome.err e) y = Except.error e ∧
    materializeOne md SysOutcome.ok (some (SysOutcome.err e)) = Except.error e ∧
    materializeAll ((md, SysOutcome.err e, y) :: rest) = Except.error e := by
  cases md <;> exact ⟨rfl, rfl, rfl, rfl⟩
